import Mathlib

/-!
Shallow embedding of the border-cropping algorithm of PYResizer
(`auto_crop_borders` in `src/main.py`), together with proofs of the
specification claims about it.

The embedded part is the pure image transformation: pixel classification
(`is_background`), the four boundary scans (`findTop`, `findBottom`,
`findLeft`, `findRight`), the degenerate-case test, crop extraction, and
square padding.  The file-system shell around it (opening, saving) is not
part of the pixel algorithm and is not modelled, except that the absence
of any error signal in the crop path is recorded by `auto_crop_bordersE`.
-/

namespace PYResizer

/-- One RGBA pixel; channel values are 8-bit in the source (0..255),
modelled as `Nat`. -/
structure Pixel where
  r : Nat
  g : Nat
  b : Nat
  a : Nat
deriving DecidableEq, Repr

/-- An image: width, height, and the pixel at (row, col), mirroring the
numpy array indexing `img_array[row, col]` of the source. -/
structure Image where
  width : Nat
  height : Nat
  pix : Nat → Nat → Pixel

/-- `is_background(pixel, threshold)` from `src/main.py` lines 41-46:
transparent (alpha exactly 0) when `crop_transparent` is set, else all of
r, g, b at least `threshold`. -/
def is_background (crop_transparent : Bool) (threshold : Nat) (p : Pixel) : Bool :=
  if crop_transparent = true ∧ p.a = 0 then
    true
  else
    decide (threshold ≤ p.r) && decide (threshold ≤ p.g) && decide (threshold ≤ p.b)

/-- `all(is_background(img_array[r, col], threshold) for col in range(width))`. -/
def rowAllBg (img : Image) (ct : Bool) (th : Nat) (r : Nat) : Bool :=
  (List.range img.width).all fun col => is_background ct th (img.pix r col)

/-- `all(is_background(img_array[row, c], threshold) for row in range(height))`. -/
def colAllBg (img : Image) (ct : Bool) (th : Nat) (c : Nat) : Bool :=
  (List.range img.height).all fun row => is_background ct th (img.pix row c)

/-- The increasing scan loop `while i < n and lineBg(i): i += 1`, with
explicit fuel.  Fuel `n` suffices, since the index starts at 0 and each
iteration increments it, stopping no later than `i = n`. -/
def scanUpAux (lineBg : Nat → Bool) (n : Nat) : Nat → Nat → Nat
  | 0, i => i
  | fuel + 1, i =>
      if i < n ∧ lineBg i = true then scanUpAux lineBg n fuel (i + 1) else i

/-- The decreasing scan loop `while b >= 0 and lineBg(b): b -= 1`, with
explicit fuel.  Starting at `n - 1`, fuel `n` suffices to reach `-1`. -/
def scanDownAux (lineBg : Nat → Bool) : Nat → Int → Int
  | 0, b => b
  | fuel + 1, b =>
      if 0 ≤ b ∧ lineBg b.toNat = true then scanDownAux lineBg fuel (b - 1) else b

/-- Lines 54-57: `top = 0; while top < height and row top all background: top += 1`. -/
def findTop (img : Image) (ct : Bool) (th : Nat) : Nat :=
  scanUpAux (rowAllBg img ct th) img.height img.height 0

/-- Lines 59-62: `bottom = height - 1; while bottom >= 0 and row bottom all background: bottom -= 1`. -/
def findBottom (img : Image) (ct : Bool) (th : Nat) : Int :=
  scanDownAux (rowAllBg img ct th) img.height ((img.height : Int) - 1)

/-- Lines 64-67: `left = 0; while left < width and column left all background: left += 1`. -/
def findLeft (img : Image) (ct : Bool) (th : Nat) : Nat :=
  scanUpAux (colAllBg img ct th) img.width img.width 0

/-- Lines 69-72: `right = width - 1; while right >= 0 and column right all background: right -= 1`. -/
def findRight (img : Image) (ct : Bool) (th : Nat) : Int :=
  scanDownAux (colAllBg img ct th) img.width ((img.width : Int) - 1)

/-- PIL `img.crop((l, t, r, b))`: the sub-image of width `r - l` and
height `b - t` whose (row, col) pixel is the source's (t + row, l + col)
pixel.  The algorithm only calls it with a box inside the image. -/
def Image.crop (img : Image) (l t r b : Nat) : Image :=
  { width := r - l
    height := b - t
    pix := fun row col => img.pix (t + row) (l + col) }

/-- Lines 93-111: square canvas of side `max_dimension + padding * 2`,
fully transparent `(0,0,0,0)`, with the cropped image pasted at
`(padding + (max_dimension - cropped_width) // 2,
  padding + (max_dimension - cropped_height) // 2)`.
PIL `paste` of an RGBA image without a mask overwrites pixels, alpha
included. -/
def makeSquare (cropped : Image) (padding : Nat) : Image :=
  let cropped_width := cropped.width
  let cropped_height := cropped.height
  let max_dimension := max cropped_width cropped_height
  let square_size := max_dimension + padding * 2
  let px := padding + (max_dimension - cropped_width) / 2
  let py := padding + (max_dimension - cropped_height) / 2
  { width := square_size
    height := square_size
    pix := fun row col =>
      if py ≤ row ∧ row < py + cropped_height ∧ px ≤ col ∧ col < px + cropped_width then
        cropped.pix (row - py) (col - px)
      else
        ⟨0, 0, 0, 0⟩ }

/-- The outcome of the crop algorithm: either the image was cropped (and
optionally squared) or it is passed through unchanged (the degenerate
branch, lines 78-81). -/
inductive CropResult where
  | Cropped : Image → CropResult
  | Unchanged : Image → CropResult

def CropResult.image : CropResult → Image
  | .Cropped i => i
  | .Unchanged i => i

def CropResult.isCropped : CropResult → Bool
  | .Cropped _ => true
  | .Unchanged _ => false

def CropResult.isUnchanged : CropResult → Bool
  | .Cropped _ => false
  | .Unchanged _ => true

/-- The pure core of `auto_crop_borders` (`src/main.py` lines 38-111):
scan the four boundaries, pass the image through unchanged when
`top >= bottom or left >= right`, otherwise crop to
`(left, top, right + 1, bottom + 1)` and square-pad when requested. -/
def auto_crop_borders (img : Image) (threshold : Nat) (crop_transparent : Bool)
    (make_square : Bool) (padding : Nat) : CropResult :=
  let top := findTop img crop_transparent threshold
  let bottom := findBottom img crop_transparent threshold
  let left := findLeft img crop_transparent threshold
  let right := findRight img crop_transparent threshold
  if (top : Int) ≥ bottom ∨ (left : Int) ≥ right then
    CropResult.Unchanged img
  else
    let cropped := img.crop left top (right.toNat + 1) (bottom.toNat + 1)
    if make_square then
      CropResult.Cropped (makeSquare cropped padding)
    else
      CropResult.Cropped cropped

/-- The error kind named by the specification for malformed images. -/
inductive CropError where
  | InvalidImage
deriving DecidableEq, Repr

/-- The crop path of the source raises nothing for degenerate dimensions
(the scans simply exhaust and the unchanged branch runs), so embedding it
with an explicit error space yields `Except.ok` on every input.  This
definition records that absence of an error branch. -/
def auto_crop_bordersE (img : Image) (threshold : Nat) (crop_transparent : Bool)
    (make_square : Bool) (padding : Nat) : Except CropError CropResult :=
  Except.ok (auto_crop_borders img threshold crop_transparent make_square padding)

/-- Pixel-for-pixel identity of two images (same dimensions, same pixel at
every in-range coordinate). -/
def Image.sameAs (x y : Image) : Bool :=
  decide (x.width = y.width) && decide (x.height = y.height) &&
    ((List.range x.height).all fun row =>
      (List.range x.width).all fun col => decide (x.pix row col = y.pix row col))

/-! ### Helper lemmas: line tests -/

theorem rowAllBg_iff (img : Image) (ct : Bool) (th : Nat) (r : Nat) :
    rowAllBg img ct th r = true ↔
      ∀ c, c < img.width → is_background ct th (img.pix r c) = true := by
  simp [rowAllBg, List.all_eq_true, List.mem_range]

theorem colAllBg_iff (img : Image) (ct : Bool) (th : Nat) (c : Nat) :
    colAllBg img ct th c = true ↔
      ∀ r, r < img.height → is_background ct th (img.pix r c) = true := by
  simp [colAllBg, List.all_eq_true, List.mem_range]

theorem rowAllBg_eq_false (img : Image) (ct : Bool) (th : Nat) (r : Nat) :
    rowAllBg img ct th r = false ↔
      ∃ c, c < img.width ∧ is_background ct th (img.pix r c) = false := by
  rw [← Bool.not_eq_true, rowAllBg_iff]
  push_neg
  simp only [Bool.not_eq_true]

theorem colAllBg_eq_false (img : Image) (ct : Bool) (th : Nat) (c : Nat) :
    colAllBg img ct th c = false ↔
      ∃ r, r < img.height ∧ is_background ct th (img.pix r c) = false := by
  rw [← Bool.not_eq_true, colAllBg_iff]
  push_neg
  simp only [Bool.not_eq_true]

theorem sameAs_iff (x y : Image) :
    Image.sameAs x y = true ↔
      x.width = y.width ∧ x.height = y.height ∧
        ∀ row, row < x.height → ∀ col, col < x.width → x.pix row col = y.pix row col := by
  simp [Image.sameAs, List.all_eq_true, List.mem_range, and_assoc]

/-! ### Helper lemmas: the scan loops -/

theorem scanUpAux_spec (lineBg : Nat → Bool) (n : Nat) :
    ∀ fuel i, n ≤ fuel + i → i ≤ n →
      (∀ j, i ≤ j → j < scanUpAux lineBg n fuel i → lineBg j = true) ∧
      i ≤ scanUpAux lineBg n fuel i ∧
      scanUpAux lineBg n fuel i ≤ n ∧
      (scanUpAux lineBg n fuel i < n → lineBg (scanUpAux lineBg n fuel i) = false) := by
  intro fuel
  induction fuel with
  | zero =>
    intro i h1 h2
    simp only [scanUpAux]
    exact ⟨fun j hij hji => absurd hji (by omega), Nat.le_refl i, h2,
      fun h => absurd h (by omega)⟩
  | succ fuel ih =>
    intro i h1 h2
    by_cases hc : i < n ∧ lineBg i = true
    · have heq : scanUpAux lineBg n (fuel + 1) i = scanUpAux lineBg n fuel (i + 1) := by
        simp [scanUpAux, hc]
      have spec := ih (i + 1) (by omega) (by omega)
      rw [heq]
      refine ⟨?_, by omega, spec.2.2.1, spec.2.2.2⟩
      intro j hij hjlt
      rcases Nat.eq_or_lt_of_le hij with h | h
      · rw [← h]; exact hc.2
      · exact spec.1 j h hjlt
    · have heq : scanUpAux lineBg n (fuel + 1) i = i := by
        simp only [scanUpAux, if_neg hc]
      rw [heq]
      refine ⟨fun j hij hji => absurd (Nat.lt_of_le_of_lt hij hji) (lt_irrefl i),
        Nat.le_refl i, h2, ?_⟩
      intro hin
      exact Bool.eq_false_iff.mpr fun ht => hc ⟨hin, ht⟩

theorem scanDownAux_spec (lineBg : Nat → Bool) :
    ∀ (fuel : Nat) (b : Int), b + 1 ≤ (fuel : Int) → -1 ≤ b →
      (∀ j : Nat, scanDownAux lineBg fuel b < (j : Int) → (j : Int) ≤ b → lineBg j = true) ∧
      -1 ≤ scanDownAux lineBg fuel b ∧
      scanDownAux lineBg fuel b ≤ b ∧
      (0 ≤ scanDownAux lineBg fuel b → lineBg (scanDownAux lineBg fuel b).toNat = false) := by
  intro fuel
  induction fuel with
  | zero =>
    intro b h1 h2
    simp only [scanDownAux]
    exact ⟨fun j hj1 hj2 => absurd hj2 (by omega), h2, le_refl b,
      fun h => absurd h (by omega)⟩
  | succ fuel ih =>
    intro b h1 h2
    by_cases hc : 0 ≤ b ∧ lineBg b.toNat = true
    · have heq : scanDownAux lineBg (fuel + 1) b = scanDownAux lineBg fuel (b - 1) := by
        simp [scanDownAux, hc]
      have spec := ih (b - 1) (by push_cast at h1 ⊢; omega) (by omega)
      rw [heq]
      refine ⟨?_, spec.2.1, by omega, spec.2.2.2⟩
      intro j hj1 hj2
      by_cases hjb : (j : Int) ≤ b - 1
      · exact spec.1 j hj1 hjb
      · have hjeq : j = b.toNat := by omega
        rw [hjeq]; exact hc.2
    · have heq : scanDownAux lineBg (fuel + 1) b = b := by
        simp only [scanDownAux, if_neg hc]
      rw [heq]
      refine ⟨fun j hj1 hj2 => absurd (lt_of_lt_of_le hj1 hj2) (lt_irrefl b),
        h2, le_refl b, ?_⟩
      intro h0
      exact Bool.eq_false_iff.mpr fun ht => hc ⟨h0, ht⟩

/-! ### Helper lemmas: the four boundary scans -/

theorem findTop_spec (img : Image) (ct : Bool) (th : Nat) :
    (∀ j, j < findTop img ct th → rowAllBg img ct th j = true) ∧
    findTop img ct th ≤ img.height ∧
    (findTop img ct th < img.height → rowAllBg img ct th (findTop img ct th) = false) := by
  have h := scanUpAux_spec (rowAllBg img ct th) img.height img.height 0
    (by omega) (Nat.zero_le _)
  exact ⟨fun j hj => h.1 j (Nat.zero_le j) hj, h.2.2.1, h.2.2.2⟩

theorem findBottom_spec (img : Image) (ct : Bool) (th : Nat) :
    (∀ j : Nat, findBottom img ct th < (j : Int) → j < img.height →
      rowAllBg img ct th j = true) ∧
    -1 ≤ findBottom img ct th ∧
    findBottom img ct th < (img.height : Int) ∧
    (0 ≤ findBottom img ct th →
      rowAllBg img ct th (findBottom img ct th).toNat = false) := by
  have h := scanDownAux_spec (rowAllBg img ct th) img.height ((img.height : Int) - 1)
    (by omega) (by omega)
  have hb : findBottom img ct th
      = scanDownAux (rowAllBg img ct th) img.height ((img.height : Int) - 1) := rfl
  rw [hb]
  exact ⟨fun j hj1 hj2 => h.1 j hj1 (by omega), h.2.1, by have := h.2.2.1; omega, h.2.2.2⟩

theorem findLeft_spec (img : Image) (ct : Bool) (th : Nat) :
    (∀ j, j < findLeft img ct th → colAllBg img ct th j = true) ∧
    findLeft img ct th ≤ img.width ∧
    (findLeft img ct th < img.width → colAllBg img ct th (findLeft img ct th) = false) := by
  have h := scanUpAux_spec (colAllBg img ct th) img.width img.width 0
    (by omega) (Nat.zero_le _)
  exact ⟨fun j hj => h.1 j (Nat.zero_le j) hj, h.2.2.1, h.2.2.2⟩

theorem findRight_spec (img : Image) (ct : Bool) (th : Nat) :
    (∀ j : Nat, findRight img ct th < (j : Int) → j < img.width →
      colAllBg img ct th j = true) ∧
    -1 ≤ findRight img ct th ∧
    findRight img ct th < (img.width : Int) ∧
    (0 ≤ findRight img ct th →
      colAllBg img ct th (findRight img ct th).toNat = false) := by
  have h := scanDownAux_spec (colAllBg img ct th) img.width ((img.width : Int) - 1)
    (by omega) (by omega)
  have hb : findRight img ct th
      = scanDownAux (colAllBg img ct th) img.width ((img.width : Int) - 1) := rfl
  rw [hb]
  exact ⟨fun j hj1 hj2 => h.1 j hj1 (by omega), h.2.1, by have := h.2.2.1; omega, h.2.2.2⟩

theorem findTop_eq (img : Image) (ct : Bool) (th : Nat) (y : Nat)
    (h1 : ∀ j, j < y → rowAllBg img ct th j = true)
    (h2 : y < img.height) (h3 : rowAllBg img ct th y = false) :
    findTop img ct th = y := by
  have spec := findTop_spec img ct th
  rcases Nat.lt_trichotomy (findTop img ct th) y with h | h | h
  · have ht : rowAllBg img ct th (findTop img ct th) = true := h1 _ h
    have hf : rowAllBg img ct th (findTop img ct th) = false :=
      spec.2.2 (lt_trans h h2)
    rw [ht] at hf; exact absurd hf (by simp)
  · exact h
  · have := spec.1 y h
    rw [this] at h3; exact absurd h3 (by simp)

theorem findTop_exhaust (img : Image) (ct : Bool) (th : Nat)
    (h : ∀ j, j < img.height → rowAllBg img ct th j = true) :
    findTop img ct th = img.height := by
  have spec := findTop_spec img ct th
  rcases Nat.lt_or_ge (findTop img ct th) img.height with hlt | hge
  · have := spec.2.2 hlt
    rw [h _ hlt] at this; exact absurd this (by simp)
  · omega

theorem findBottom_eq (img : Image) (ct : Bool) (th : Nat) (y : Nat)
    (h1 : ∀ j : Nat, y < j → j < img.height → rowAllBg img ct th j = true)
    (h2 : y < img.height) (h3 : rowAllBg img ct th y = false) :
    findBottom img ct th = (y : Int) := by
  have spec := findBottom_spec img ct th
  rcases lt_trichotomy (findBottom img ct th) (y : Int) with h | h | h
  · have := spec.1 y h (by omega)
    rw [this] at h3; exact absurd h3 (by simp)
  · exact h
  · have h0 : 0 ≤ findBottom img ct th := by omega
    have hf := spec.2.2.2 h0
    have ht := h1 (findBottom img ct th).toNat (by omega) (by have := spec.2.2.1; omega)
    rw [ht] at hf; exact absurd hf (by simp)

theorem findBottom_exhaust (img : Image) (ct : Bool) (th : Nat)
    (h : ∀ j, j < img.height → rowAllBg img ct th j = true) :
    findBottom img ct th = -1 := by
  have spec := findBottom_spec img ct th
  by_cases h0 : 0 ≤ findBottom img ct th
  · have hf := spec.2.2.2 h0
    have ht := h (findBottom img ct th).toNat (by have := spec.2.2.1; omega)
    rw [ht] at hf; exact absurd hf (by simp)
  · have := spec.2.1; omega

theorem findLeft_eq (img : Image) (ct : Bool) (th : Nat) (x : Nat)
    (h1 : ∀ j, j < x → colAllBg img ct th j = true)
    (h2 : x < img.width) (h3 : colAllBg img ct th x = false) :
    findLeft img ct th = x := by
  have spec := findLeft_spec img ct th
  rcases Nat.lt_trichotomy (findLeft img ct th) x with h | h | h
  · have ht : colAllBg img ct th (findLeft img ct th) = true := h1 _ h
    have hf : colAllBg img ct th (findLeft img ct th) = false :=
      spec.2.2 (lt_trans h h2)
    rw [ht] at hf; exact absurd hf (by simp)
  · exact h
  · have := spec.1 x h
    rw [this] at h3; exact absurd h3 (by simp)

theorem findLeft_exhaust (img : Image) (ct : Bool) (th : Nat)
    (h : ∀ j, j < img.width → colAllBg img ct th j = true) :
    findLeft img ct th = img.width := by
  have spec := findLeft_spec img ct th
  rcases Nat.lt_or_ge (findLeft img ct th) img.width with hlt | hge
  · have := spec.2.2 hlt
    rw [h _ hlt] at this; exact absurd this (by simp)
  · omega

theorem findRight_eq (img : Image) (ct : Bool) (th : Nat) (x : Nat)
    (h1 : ∀ j : Nat, x < j → j < img.width → colAllBg img ct th j = true)
    (h2 : x < img.width) (h3 : colAllBg img ct th x = false) :
    findRight img ct th = (x : Int) := by
  have spec := findRight_spec img ct th
  rcases lt_trichotomy (findRight img ct th) (x : Int) with h | h | h
  · have := spec.1 x h (by omega)
    rw [this] at h3; exact absurd h3 (by simp)
  · exact h
  · have h0 : 0 ≤ findRight img ct th := by omega
    have hf := spec.2.2.2 h0
    have ht := h1 (findRight img ct th).toNat (by omega) (by have := spec.2.2.1; omega)
    rw [ht] at hf; exact absurd hf (by simp)

theorem findRight_exhaust (img : Image) (ct : Bool) (th : Nat)
    (h : ∀ j, j < img.width → colAllBg img ct th j = true) :
    findRight img ct th = -1 := by
  have spec := findRight_spec img ct th
  by_cases h0 : 0 ≤ findRight img ct th
  · have hf := spec.2.2.2 h0
    have ht := h (findRight img ct th).toNat (by have := spec.2.2.1; omega)
    rw [ht] at hf; exact absurd hf (by simp)
  · have := spec.2.1; omega

/-- A row with a non-background pixel has that pixel in a column between
`findLeft` and `findRight`: columns before `findLeft` and after `findRight`
are fully background. -/
theorem nonbg_col_mem (img : Image) (ct : Bool) (th : Nat) (t : Nat)
    (ht : t < img.height) (hrow : rowAllBg img ct th t = false) :
    ∃ c0, findLeft img ct th ≤ c0 ∧ (c0 : Int) ≤ findRight img ct th ∧
      c0 < img.width ∧ is_background ct th (img.pix t c0) = false := by
  rcases (rowAllBg_eq_false img ct th t).mp hrow with ⟨c0, hc0, hb⟩
  refine ⟨c0, ?_, ?_, hc0, hb⟩
  · by_contra hlt
    push_neg at hlt
    have hcol := (findLeft_spec img ct th).1 c0 hlt
    have := (colAllBg_iff img ct th c0).mp hcol t ht
    rw [this] at hb; exact absurd hb (by simp)
  · by_contra hgt
    push_neg at hgt
    have hcol := (findRight_spec img ct th).1 c0 hgt hc0
    have := (colAllBg_iff img ct th c0).mp hcol t ht
    rw [this] at hb; exact absurd hb (by simp)

/-- A column with a non-background pixel has that pixel in a row between
`findTop` and `findBottom`. -/
theorem nonbg_row_mem (img : Image) (ct : Bool) (th : Nat) (x : Nat)
    (hx : x < img.width) (hcol : colAllBg img ct th x = false) :
    ∃ r0, findTop img ct th ≤ r0 ∧ (r0 : Int) ≤ findBottom img ct th ∧
      r0 < img.height ∧ is_background ct th (img.pix r0 x) = false := by
  rcases (colAllBg_eq_false img ct th x).mp hcol with ⟨r0, hr0, hb⟩
  refine ⟨r0, ?_, ?_, hr0, hb⟩
  · by_contra hlt
    push_neg at hlt
    have hrow := (findTop_spec img ct th).1 r0 hlt
    have := (rowAllBg_iff img ct th r0).mp hrow x hx
    rw [this] at hb; exact absurd hb (by simp)
  · by_contra hgt
    push_neg at hgt
    have hrow := (findBottom_spec img ct th).1 r0 hgt hr0
    have := (rowAllBg_iff img ct th r0).mp hrow x hx
    rw [this] at hb; exact absurd hb (by simp)

/-! ### Helper lemmas: the two branches of the crop -/

theorem auto_crop_of_degenerate (img : Image) (th : Nat) (ct sq : Bool) (pad : Nat)
    (h : (findTop img ct th : Int) ≥ findBottom img ct th ∨
         (findLeft img ct th : Int) ≥ findRight img ct th) :
    auto_crop_borders img th ct sq pad = CropResult.Unchanged img := by
  simp only [auto_crop_borders]
  rw [if_pos h]

theorem auto_crop_of_nondegenerate (img : Image) (th : Nat) (ct sq : Bool) (pad : Nat)
    (h : ¬((findTop img ct th : Int) ≥ findBottom img ct th ∨
           (findLeft img ct th : Int) ≥ findRight img ct th)) :
    auto_crop_borders img th ct sq pad =
      (if sq then
        CropResult.Cropped (makeSquare (img.crop (findLeft img ct th) (findTop img ct th)
          ((findRight img ct th).toNat + 1) ((findBottom img ct th).toNat + 1)) pad)
      else
        CropResult.Cropped (img.crop (findLeft img ct th) (findTop img ct th)
          ((findRight img ct th).toNat + 1) ((findBottom img ct th).toNat + 1))) := by
  simp only [auto_crop_borders]
  rw [if_neg h]

/-! ### Concrete images used by witnesses and counterexamples -/

def whitePx : Pixel := ⟨255, 255, 255, 255⟩
def blackPx : Pixel := ⟨0, 0, 0, 255⟩
def clearPx : Pixel := ⟨0, 0, 0, 0⟩

/-- The spec's concrete scenario: 10x10 fully white, with pixels (3,3)
through (6,6) inclusive black. -/
def img10 : Image :=
  { width := 10, height := 10
    pix := fun row col =>
      if 3 ≤ row ∧ row ≤ 6 ∧ 3 ≤ col ∧ col ≤ 6 then blackPx else whitePx }

/-- Expected 4x4 output of the non-square crop of `img10`. -/
def black4 : Image := { width := 4, height := 4, pix := fun _ _ => blackPx }

/-- Expected 8x8 output of the square crop of `img10` with padding 2:
black content at rows/cols 2..5, transparent elsewhere. -/
def sq8 : Image :=
  { width := 8, height := 8
    pix := fun row col =>
      if 2 ≤ row ∧ row ≤ 5 ∧ 2 ≤ col ∧ col ≤ 5 then blackPx else clearPx }

/-- 5x5 white image with a 2-wide, 3-tall black block (rows 1..3, cols 1..2):
its cropped content is 2x3, so the x-axis slack `maxDim - width = 1` is odd. -/
def img5 : Image :=
  { width := 5, height := 5
    pix := fun row col =>
      if 1 ≤ row ∧ row ≤ 3 ∧ 1 ≤ col ∧ col ≤ 2 then blackPx else whitePx }

/-- A degenerate 0x0 image. -/
def img00 : Image := { width := 0, height := 0, pix := fun _ _ => whitePx }

/-- 5x5 white image with a single black pixel at row 2, column 3. -/
def img1px : Image :=
  { width := 5, height := 5
    pix := fun row col => if row = 2 ∧ col = 3 then blackPx else whitePx }

/-- 4x4 white image whose non-background pixels all lie in row 1
(columns 1 and 2). -/
def imgRow : Image :=
  { width := 4, height := 4
    pix := fun row col => if row = 1 ∧ (col = 1 ∨ col = 2) then blackPx else whitePx }

/-- 6x6 fully white image. -/
def imgAllWhite : Image := { width := 6, height := 6, pix := fun _ _ => whitePx }

/-! ### Claim theorems -/

/-- C1: the four boundary scans compute: `top` = the first row index
counting up from 0 whose row contains at least one non-background pixel,
`bottom` = the first such row counting down from height - 1, `left` /
`right` the analogous column indices; a scan that exhausts the image
yields the out-of-range sentinel (top = height, bottom = -1, left = width,
right = -1). -/
theorem boundary_scans_characterization (img : Image) (ct : Bool) (th : Nat) :
    ((∀ j, j < findTop img ct th → ∀ c, c < img.width →
        is_background ct th (img.pix j c) = true) ∧
      (findTop img ct th < img.height →
        ∃ c, c < img.width ∧ is_background ct th (img.pix (findTop img ct th) c) = false) ∧
      findTop img ct th ≤ img.height ∧
      ((∀ j, j < img.height → ∀ c, c < img.width →
          is_background ct th (img.pix j c) = true) → findTop img ct th = img.height)) ∧
    ((∀ j : Nat, findBottom img ct th < (j : Int) → j < img.height → ∀ c, c < img.width →
        is_background ct th (img.pix j c) = true) ∧
      (0 ≤ findBottom img ct th →
        ∃ c, c < img.width ∧
          is_background ct th (img.pix (findBottom img ct th).toNat c) = false) ∧
      (-1 ≤ findBottom img ct th ∧ findBottom img ct th < (img.height : Int)) ∧
      ((∀ j, j < img.height → ∀ c, c < img.width →
          is_background ct th (img.pix j c) = true) → findBottom img ct th = -1)) ∧
    ((∀ j, j < findLeft img ct th → ∀ r, r < img.height →
        is_background ct th (img.pix r j) = true) ∧
      (findLeft img ct th < img.width →
        ∃ r, r < img.height ∧ is_background ct th (img.pix r (findLeft img ct th)) = false) ∧
      findLeft img ct th ≤ img.width ∧
      ((∀ j, j < img.width → ∀ r, r < img.height →
          is_background ct th (img.pix r j) = true) → findLeft img ct th = img.width)) ∧
    ((∀ j : Nat, findRight img ct th < (j : Int) → j < img.width → ∀ r, r < img.height →
        is_background ct th (img.pix r j) = true) ∧
      (0 ≤ findRight img ct th →
        ∃ r, r < img.height ∧
          is_background ct th (img.pix r (findRight img ct th).toNat) = false) ∧
      (-1 ≤ findRight img ct th ∧ findRight img ct th < (img.width : Int)) ∧
      ((∀ j, j < img.width → ∀ r, r < img.height →
          is_background ct th (img.pix r j) = true) → findRight img ct th = -1)) := by
  refine ⟨⟨?_, ?_, ?_, ?_⟩, ⟨?_, ?_, ?_, ?_⟩, ⟨?_, ?_, ?_, ?_⟩, ⟨?_, ?_, ?_, ?_⟩⟩
  · exact fun j hj => (rowAllBg_iff img ct th j).mp ((findTop_spec img ct th).1 j hj)
  · exact fun h => (rowAllBg_eq_false img ct th _).mp ((findTop_spec img ct th).2.2 h)
  · exact (findTop_spec img ct th).2.1
  · exact fun h => findTop_exhaust img ct th
      (fun j hj => (rowAllBg_iff img ct th j).mpr (h j hj))
  · exact fun j hj1 hj2 => (rowAllBg_iff img ct th j).mp
      ((findBottom_spec img ct th).1 j hj1 hj2)
  · exact fun h => (rowAllBg_eq_false img ct th _).mp ((findBottom_spec img ct th).2.2.2 h)
  · exact ⟨(findBottom_spec img ct th).2.1, (findBottom_spec img ct th).2.2.1⟩
  · exact fun h => findBottom_exhaust img ct th
      (fun j hj => (rowAllBg_iff img ct th j).mpr (h j hj))
  · exact fun j hj => (colAllBg_iff img ct th j).mp ((findLeft_spec img ct th).1 j hj)
  · exact fun h => (colAllBg_eq_false img ct th _).mp ((findLeft_spec img ct th).2.2 h)
  · exact (findLeft_spec img ct th).2.1
  · exact fun h => findLeft_exhaust img ct th
      (fun j hj => (colAllBg_iff img ct th j).mpr (h j hj))
  · exact fun j hj1 hj2 => (colAllBg_iff img ct th j).mp
      ((findRight_spec img ct th).1 j hj1 hj2)
  · exact fun h => (colAllBg_eq_false img ct th _).mp ((findRight_spec img ct th).2.2.2 h)
  · exact ⟨(findRight_spec img ct th).2.1, (findRight_spec img ct th).2.2.1⟩
  · exact fun h => findRight_exhaust img ct th
      (fun j hj => (colAllBg_iff img ct th j).mpr (h j hj))

/-- Witness for C1: on the all-white image the top scan exhausts to the
sentinel `height` and the bottom scan to `-1`; on the 10x10 scenario image
the found top row holds a non-background pixel. -/
theorem boundary_scans_characterization_witness :
    findTop imgAllWhite true 240 = imgAllWhite.height ∧
    findBottom imgAllWhite true 240 = -1 ∧
    (∃ c, c < img10.width ∧
      is_background true 240 (img10.pix (findTop img10 true 240) c) = false) :=
  ⟨(boundary_scans_characterization imgAllWhite true 240).1.2.2.2 (by decide),
   (boundary_scans_characterization imgAllWhite true 240).2.1.2.2.2 (by decide),
   (boundary_scans_characterization img10 true 240).1.2.1 (by decide)⟩

/-- C2: a pixel is background iff (`crop_transparent` and alpha = 0) or all
of r, g, b pass the threshold; with `crop_transparent` set, alpha = 0 makes
the pixel background regardless of RGB, and any pixel with alpha >= 1 is
background exactly when its RGB channels all pass the threshold. -/
theorem is_background_classification (ct : Bool) (th : Nat) (p : Pixel) :
    (is_background ct th p = true ↔
      (ct = true ∧ p.a = 0) ∨ (th ≤ p.r ∧ th ≤ p.g ∧ th ≤ p.b)) ∧
    (ct = true → p.a = 0 → is_background ct th p = true) ∧
    (1 ≤ p.a → (is_background ct th p = true ↔ th ≤ p.r ∧ th ≤ p.g ∧ th ≤ p.b)) := by
  unfold is_background
  by_cases h : ct = true ∧ p.a = 0
  · rw [if_pos h]
    exact ⟨by simp [h], fun _ _ => rfl, fun ha => absurd h.2 (by omega)⟩
  · rw [if_neg h]
    refine ⟨?_, fun hct ha => absurd ⟨hct, ha⟩ h, fun _ => ?_⟩
    · simp only [Bool.and_eq_true, decide_eq_true_eq]
      constructor
      · rintro ⟨⟨h1, h2⟩, h3⟩
        exact Or.inr ⟨h1, h2, h3⟩
      · rintro (habs | ⟨h1, h2, h3⟩)
        · exact absurd habs h
        · exact ⟨⟨h1, h2⟩, h3⟩
    · simp only [Bool.and_eq_true, decide_eq_true_eq, and_assoc]

/-- Witness for C2: the pure-red fully-transparent pixel is background, and
the same pixel with alpha 255 is background only via the RGB test (which it
fails). -/
theorem is_background_classification_witness :
    is_background true 240 ⟨255, 0, 0, 0⟩ = true ∧
    (is_background true 240 ⟨255, 0, 0, 255⟩ = true ↔
      240 ≤ 255 ∧ 240 ≤ 0 ∧ 240 ≤ 0) :=
  ⟨(is_background_classification true 240 ⟨255, 0, 0, 0⟩).2.1 rfl rfl,
   (is_background_classification true 240 ⟨255, 0, 0, 255⟩).2.2 (by decide)⟩

/-- C3: when the scans give `top < bottom` and `left < right`, the crop
extracts exactly the sub-image with half-open box
`(left, top, right + 1, bottom + 1)`; on the 10x10 scenario the box is
(3, 3, 7, 7) and the output is the 4x4 black block. -/
theorem crop_extraction (img : Image) (th : Nat) (ct : Bool) (pad : Nat)
    (hv : (findTop img ct th : Int) < findBottom img ct th)
    (hh : (findLeft img ct th : Int) < findRight img ct th) :
    (auto_crop_borders img th ct false pad).isCropped = true ∧
    (auto_crop_borders img th ct false pad).image.width
      = (findRight img ct th).toNat + 1 - findLeft img ct th ∧
    (auto_crop_borders img th ct false pad).image.height
      = (findBottom img ct th).toNat + 1 - findTop img ct th ∧
    (∀ row col, (auto_crop_borders img th ct false pad).image.pix row col
      = img.pix (findTop img ct th + row) (findLeft img ct th + col)) ∧
    findTop img10 true 240 = 3 ∧ findBottom img10 true 240 = 6 ∧
    findLeft img10 true 240 = 3 ∧ findRight img10 true 240 = 6 ∧
    (auto_crop_borders img10 240 true false 0).image.width = 4 ∧
    (auto_crop_borders img10 240 true false 0).image.height = 4 ∧
    Image.sameAs (auto_crop_borders img10 240 true false 0).image black4 = true := by
  have hneg : ¬((findTop img ct th : Int) ≥ findBottom img ct th ∨
      (findLeft img ct th : Int) ≥ findRight img ct th) := by
    push_neg
    exact ⟨hv, hh⟩
  rw [auto_crop_of_nondegenerate img th ct false pad hneg]
  exact ⟨rfl, rfl, rfl, fun row col => rfl, by decide, by decide, by decide, by decide,
    by decide, by decide, by decide⟩

/-- Witness for C3 at the 10x10 scenario image. -/
theorem crop_extraction_witness :
    (auto_crop_borders img10 240 true false 0).isCropped = true ∧
    (auto_crop_borders img10 240 true false 0).image.width
      = (findRight img10 true 240).toNat + 1 - findLeft img10 true 240 :=
  ⟨(crop_extraction img10 240 true 0 (by decide) (by decide)).1,
   (crop_extraction img10 240 true 0 (by decide) (by decide)).2.1⟩

/-- C4: the crop returns `Unchanged` exactly when `top >= bottom` or
`left >= right`; in that case the returned image is the input itself, and
in particular an all-background image is always returned `Unchanged`. -/
theorem unchanged_iff_degenerate (img : Image) (th : Nat) (ct sq : Bool) (pad : Nat) :
    ((auto_crop_borders img th ct sq pad).isUnchanged = true ↔
      ((findTop img ct th : Int) ≥ findBottom img ct th ∨
       (findLeft img ct th : Int) ≥ findRight img ct th)) ∧
    ((auto_crop_borders img th ct sq pad).isUnchanged = true →
      (auto_crop_borders img th ct sq pad).image = img) ∧
    ((∀ r, r < img.height → ∀ c, c < img.width →
        is_background ct th (img.pix r c) = true) →
      auto_crop_borders img th ct sq pad = CropResult.Unchanged img) := by
  by_cases hg : (findTop img ct th : Int) ≥ findBottom img ct th ∨
      (findLeft img ct th : Int) ≥ findRight img ct th
  · rw [auto_crop_of_degenerate img th ct sq pad hg]
    exact ⟨by simp [CropResult.isUnchanged, hg], fun _ => rfl, fun _ => rfl⟩
  · rw [auto_crop_of_nondegenerate img th ct sq pad hg]
    refine ⟨?_, ?_, ?_⟩
    · cases sq <;> simp [CropResult.isUnchanged, hg]
    · cases sq <;> simp [CropResult.isUnchanged]
    · intro hall
      exfalso
      apply hg
      left
      have htop := findTop_exhaust img ct th
        (fun j hj => (rowAllBg_iff img ct th j).mpr (hall j hj))
      have hbot := findBottom_exhaust img ct th
        (fun j hj => (rowAllBg_iff img ct th j).mpr (hall j hj))
      rw [htop, hbot]
      omega

/-- Witness for C4: the all-white image comes back `Unchanged`. -/
theorem unchanged_iff_degenerate_witness :
    auto_crop_borders imgAllWhite 240 true true 2 = CropResult.Unchanged imgAllWhite :=
  (unchanged_iff_degenerate imgAllWhite 240 true true 2).2.2 (by decide)

/-- `cropped_width` (line 94): width of the cropped sub-image. -/
def croppedW (img : Image) (ct : Bool) (th : Nat) : Nat :=
  (findRight img ct th).toNat + 1 - findLeft img ct th

/-- `cropped_height` (line 94): height of the cropped sub-image. -/
def croppedH (img : Image) (ct : Bool) (th : Nat) : Nat :=
  (findBottom img ct th).toNat + 1 - findTop img ct th

/-- `max_dimension` (line 97). -/
def maxDim (img : Image) (ct : Bool) (th : Nat) : Nat :=
  max (croppedW img ct th) (croppedH img ct th)

/-- The x paste offset (line 105): `padding + (max_dimension - cropped_width) // 2`. -/
def offX (img : Image) (ct : Bool) (th : Nat) (pad : Nat) : Nat :=
  pad + (maxDim img ct th - croppedW img ct th) / 2

/-- The y paste offset (line 106): `padding + (max_dimension - cropped_height) // 2`. -/
def offY (img : Image) (ct : Bool) (th : Nat) (pad : Nat) : Nat :=
  pad + (maxDim img ct th - croppedH img ct th) / 2

/-- C5: with `square = true` and a non-empty crop, the output is a square
canvas of side `max(croppedWidth, croppedHeight) + 2 * padding`, fully
transparent outside the pasted content; on the 10x10 scenario with
padding 2 the output is 8x8 with the 4x4 block pasted at offset (2,2). -/
theorem square_canvas_size (img : Image) (th : Nat) (ct : Bool) (pad : Nat)
    (hv : (findTop img ct th : Int) < findBottom img ct th)
    (hh : (findLeft img ct th : Int) < findRight img ct th) :
    (auto_crop_borders img th ct true pad).isCropped = true ∧
    (auto_crop_borders img th ct true pad).image.width
      = (auto_crop_borders img th ct true pad).image.height ∧
    (auto_crop_borders img th ct true pad).image.width = maxDim img ct th + 2 * pad ∧
    (∀ row col,
      ¬(offY img ct th pad ≤ row ∧ row < offY img ct th pad + croppedH img ct th ∧
        offX img ct th pad ≤ col ∧ col < offX img ct th pad + croppedW img ct th) →
      (auto_crop_borders img th ct true pad).image.pix row col = ⟨0, 0, 0, 0⟩) ∧
    (auto_crop_borders img10 240 true true 2).image.width = 8 ∧
    (auto_crop_borders img10 240 true true 2).image.height = 8 ∧
    Image.sameAs (auto_crop_borders img10 240 true true 2).image sq8 = true := by
  have hneg : ¬((findTop img ct th : Int) ≥ findBottom img ct th ∨
      (findLeft img ct th : Int) ≥ findRight img ct th) := by
    push_neg
    exact ⟨hv, hh⟩
  rw [auto_crop_of_nondegenerate img th ct true pad hneg]
  refine ⟨rfl, rfl, ?_, ?_, by decide, by decide, by decide⟩
  · show maxDim img ct th + pad * 2 = maxDim img ct th + 2 * pad
    omega
  · intro row col hout
    exact if_neg hout

/-- Witness for C5 at the 10x10 scenario image with padding 2. -/
theorem square_canvas_size_witness :
    (auto_crop_borders img10 240 true true 2).image.width
      = maxDim img10 true 240 + 2 * 2 :=
  (square_canvas_size img10 240 true 2 (by decide) (by decide)).2.2.1

/-- Modelled from the spec's words for the centering claim: the columns of
an image that contain at least one non-transparent pixel (the content of a
canvas whose background is fully transparent). -/
def contentCols (J : Image) : List Nat :=
  (List.range J.width).filter fun c =>
    (List.range J.height).any fun r => decide ((J.pix r c).a ≠ 0)

/-- Modelled from the spec's words: the rows that contain at least one
non-transparent pixel. -/
def contentRows (J : Image) : List Nat :=
  (List.range J.height).filter fun r =>
    (List.range J.width).any fun c => decide ((J.pix r c).a ≠ 0)

/-- Modelled from the spec's words: the offsets of the content bounding box
from the (left, right, top, bottom) edges of the canvas, or `none` when
there is no content. -/
def contentGaps (J : Image) : Option (Nat × Nat × Nat × Nat) :=
  match (contentCols J).head?, (contentCols J).getLast?,
      (contentRows J).head?, (contentRows J).getLast? with
  | some l, some r, some t, some b =>
      some (l, J.width - 1 - r, t, J.height - 1 - b)
  | _, _, _, _ => none

/-- Counterexample to C6: for `img5` (cropped content 2 wide, 3 tall,
`maxDim = 3`) with padding 0, the content bounding box sits at gaps
(left, right, top, bottom) = (0, 1, 0, 0), so the offset from the right
edge is 1, not `padding + (maxDim - croppedWidth) / 2 = 0` as the claim
requires for each edge. -/
theorem centering_each_edge_counterexample :
    (auto_crop_borders img5 240 true true 0).isCropped = true ∧
    croppedW img5 true 240 = 2 ∧ croppedH img5 true 240 = 3 ∧
    contentGaps (auto_crop_borders img5 240 true true 0).image = some (0, 1, 0, 0) ∧
    ¬(1 = 0 + (maxDim img5 true 240 - croppedW img5 true 240) / 2) := by
  decide

/-- C6 amended: the pasted content is offset from the left and top edges by
`padding + (maxDim - dim) / 2` on the respective axis, and from the right
and bottom edges by `padding + ((maxDim - dim) - (maxDim - dim) / 2)` —
the two coincide only when `maxDim - dim` is even.  Inside the paste box
the canvas holds the cropped pixels, outside it is transparent. -/
theorem centering_offsets_amended (img : Image) (th : Nat) (ct : Bool) (pad : Nat)
    (hv : (findTop img ct th : Int) < findBottom img ct th)
    (hh : (findLeft img ct th : Int) < findRight img ct th) :
    offX img ct th pad = pad + (maxDim img ct th - croppedW img ct th) / 2 ∧
    offY img ct th pad = pad + (maxDim img ct th - croppedH img ct th) / 2 ∧
    (auto_crop_borders img th ct true pad).image.width
        - (offX img ct th pad + croppedW img ct th)
      = pad + ((maxDim img ct th - croppedW img ct th)
          - (maxDim img ct th - croppedW img ct th) / 2) ∧
    (auto_crop_borders img th ct true pad).image.height
        - (offY img ct th pad + croppedH img ct th)
      = pad + ((maxDim img ct th - croppedH img ct th)
          - (maxDim img ct th - croppedH img ct th) / 2) ∧
    (∀ row col,
      offY img ct th pad ≤ row → row < offY img ct th pad + croppedH img ct th →
      offX img ct th pad ≤ col → col < offX img ct th pad + croppedW img ct th →
      (auto_crop_borders img th ct true pad).image.pix row col
        = img.pix (findTop img ct th + (row - offY img ct th pad))
            (findLeft img ct th + (col - offX img ct th pad))) ∧
    (∀ row col,
      ¬(offY img ct th pad ≤ row ∧ row < offY img ct th pad + croppedH img ct th ∧
        offX img ct th pad ≤ col ∧ col < offX img ct th pad + croppedW img ct th) →
      (auto_crop_borders img th ct true pad).image.pix row col = ⟨0, 0, 0, 0⟩) := by
  have hneg : ¬((findTop img ct th : Int) ≥ findBottom img ct th ∨
      (findLeft img ct th : Int) ≥ findRight img ct th) := by
    push_neg
    exact ⟨hv, hh⟩
  rw [auto_crop_of_nondegenerate img th ct true pad hneg]
  refine ⟨rfl, rfl, ?_, ?_, ?_, ?_⟩
  · show (maxDim img ct th + pad * 2) - (offX img ct th pad + croppedW img ct th)
      = pad + ((maxDim img ct th - croppedW img ct th)
          - (maxDim img ct th - croppedW img ct th) / 2)
    unfold offX maxDim
    omega
  · show (maxDim img ct th + pad * 2) - (offY img ct th pad + croppedH img ct th)
      = pad + ((maxDim img ct th - croppedH img ct th)
          - (maxDim img ct th - croppedH img ct th) / 2)
    unfold offY maxDim
    omega
  · intro row col h1 h2 h3 h4
    exact if_pos ⟨h1, h2, h3, h4⟩
  · intro row col hout
    exact if_neg hout

/-- Witness for the amended C6 at `img5` with padding 0: the right-edge gap
is `0 + ((maxDim - croppedW) - (maxDim - croppedW) / 2)` (= 1 there). -/
theorem centering_offsets_amended_witness :
    (auto_crop_borders img5 240 true true 0).image.width
        - (offX img5 true 240 0 + croppedW img5 true 240)
      = 0 + ((maxDim img5 true 240 - croppedW img5 true 240)
          - (maxDim img5 true 240 - croppedW img5 true 240) / 2) :=
  (centering_offsets_amended img5 240 true 0 (by decide) (by decide)).2.2.1

/-- Counterexample to C7: re-cropping the 4x4 output of the first crop of
the 10x10 scenario image does not return `Unchanged` — the output has at
least two non-background rows and columns, so the degenerate branch does
not trigger and the second crop returns a `Cropped` full-frame copy. -/
theorem recrop_counterexample :
    (auto_crop_borders img10 240 true false 0).isCropped = true ∧
    (auto_crop_borders ((auto_crop_borders img10 240 true false 0).image)
      240 true false 0).isUnchanged = false := by
  decide

/-- C7 amended: re-cropping the output of a non-empty crop (square = false)
yields a `Cropped` result (not `Unchanged`) whose pixel content is
identical to that output: the second scan finds `top = 0`,
`bottom = height - 1`, `left = 0`, `right = width - 1`, and the crop box is
the full frame. -/
theorem recrop_full_frame (img : Image) (th : Nat) (ct : Bool) (pad pad2 : Nat) (c : Image)
    (h : auto_crop_borders img th ct false pad = CropResult.Cropped c) :
    (auto_crop_borders c th ct false pad2).isCropped = true ∧
    Image.sameAs (auto_crop_borders c th ct false pad2).image c = true := by
  by_cases hg : (findTop img ct th : Int) ≥ findBottom img ct th ∨
      (findLeft img ct th : Int) ≥ findRight img ct th
  · rw [auto_crop_of_degenerate img th ct false pad hg] at h
    exact CropResult.noConfusion h
  · rw [auto_crop_of_nondegenerate img th ct false pad hg] at h
    have h3 : CropResult.Cropped (img.crop (findLeft img ct th) (findTop img ct th)
        ((findRight img ct th).toNat + 1) ((findBottom img ct th).toNat + 1))
        = CropResult.Cropped c := h
    injection h3 with hc
    subst hc
    push_neg at hg
    have hbspec := findBottom_spec img ct th
    have htspec := findTop_spec img ct th
    have hlspec := findLeft_spec img ct th
    have hrspec := findRight_spec img ct th
    have hb0 : 0 ≤ findBottom img ct th := by omega
    have hr0 : 0 ≤ findRight img ct th := by omega
    have htlt : findTop img ct th < img.height := by
      have := hbspec.2.2.1; omega
    have hblt : (findBottom img ct th).toNat < img.height := by
      have := hbspec.2.2.1; omega
    have hllt : findLeft img ct th < img.width := by
      have := hrspec.2.2.1; omega
    have hrlt : (findRight img ct th).toNat < img.width := by
      have := hrspec.2.2.1; omega
    set C := img.crop (findLeft img ct th) (findTop img ct th)
      ((findRight img ct th).toNat + 1) ((findBottom img ct th).toNat + 1) with hCdef
    have hCw : C.width = (findRight img ct th).toNat + 1 - findLeft img ct th := rfl
    have hCh : C.height = (findBottom img ct th).toNat + 1 - findTop img ct th := rfl
    have hCpix : ∀ row col, C.pix row col
        = img.pix (findTop img ct th + row) (findLeft img ct th + col) := fun _ _ => rfl
    have hch2 : 2 ≤ C.height := by rw [hCh]; omega
    have hcw2 : 2 ≤ C.width := by rw [hCw]; omega
    -- the first and last rows and columns of C each contain a
    -- non-background pixel
    have hrow0 : rowAllBg C ct th 0 = false := by
      rw [rowAllBg_eq_false]
      obtain ⟨c0, hc1, hc2, hc3, hc4⟩ :=
        nonbg_col_mem img ct th (findTop img ct th) htlt (htspec.2.2 htlt)
      refine ⟨c0 - findLeft img ct th, by rw [hCw]; omega, ?_⟩
      rw [hCpix]
      have he1 : findTop img ct th + 0 = findTop img ct th := by omega
      have he2 : findLeft img ct th + (c0 - findLeft img ct th) = c0 := by omega
      rw [he1, he2]
      exact hc4
    have hrowLast : rowAllBg C ct th (C.height - 1) = false := by
      rw [rowAllBg_eq_false]
      obtain ⟨c0, hc1, hc2, hc3, hc4⟩ :=
        nonbg_col_mem img ct th (findBottom img ct th).toNat hblt (hbspec.2.2.2 hb0)
      refine ⟨c0 - findLeft img ct th, by rw [hCw]; omega, ?_⟩
      rw [hCpix]
      have he1 : findTop img ct th + (C.height - 1) = (findBottom img ct th).toNat := by
        rw [hCh]; omega
      have he2 : findLeft img ct th + (c0 - findLeft img ct th) = c0 := by omega
      rw [he1, he2]
      exact hc4
    have hcol0 : colAllBg C ct th 0 = false := by
      rw [colAllBg_eq_false]
      obtain ⟨r0, hr1, hr2, hr3, hr4⟩ :=
        nonbg_row_mem img ct th (findLeft img ct th) hllt (hlspec.2.2 hllt)
      refine ⟨r0 - findTop img ct th, by rw [hCh]; omega, ?_⟩
      rw [hCpix]
      have he1 : findTop img ct th + (r0 - findTop img ct th) = r0 := by omega
      have he2 : findLeft img ct th + 0 = findLeft img ct th := by omega
      rw [he1, he2]
      exact hr4
    have hcolLast : colAllBg C ct th (C.width - 1) = false := by
      rw [colAllBg_eq_false]
      obtain ⟨r0, hr1, hr2, hr3, hr4⟩ :=
        nonbg_row_mem img ct th (findRight img ct th).toNat hrlt (hrspec.2.2.2 hr0)
      refine ⟨r0 - findTop img ct th, by rw [hCh]; omega, ?_⟩
      rw [hCpix]
      have he1 : findTop img ct th + (r0 - findTop img ct th) = r0 := by omega
      have he2 : findLeft img ct th + (C.width - 1) = (findRight img ct th).toNat := by
        rw [hCw]; omega
      rw [he1, he2]
      exact hr4
    -- the second scan finds the full frame
    have ht2 : findTop C ct th = 0 :=
      findTop_eq C ct th 0 (fun j hj => absurd hj (Nat.not_lt_zero j)) (by omega) hrow0
    have hb2 : findBottom C ct th = ((C.height - 1 : Nat) : Int) :=
      findBottom_eq C ct th (C.height - 1) (fun j hj1 hj2 => absurd hj2 (by omega))
        (by omega) hrowLast
    have hl2 : findLeft C ct th = 0 :=
      findLeft_eq C ct th 0 (fun j hj => absurd hj (Nat.not_lt_zero j)) (by omega) hcol0
    have hr2 : findRight C ct th = ((C.width - 1 : Nat) : Int) :=
      findRight_eq C ct th (C.width - 1) (fun j hj1 hj2 => absurd hj2 (by omega))
        (by omega) hcolLast
    have hg2 : ¬((findTop C ct th : Int) ≥ findBottom C ct th ∨
        (findLeft C ct th : Int) ≥ findRight C ct th) := by
      rw [ht2, hb2, hl2, hr2]
      push_neg
      constructor
      · omega
      · omega
    rw [auto_crop_of_nondegenerate C th ct false pad2 hg2]
    refine ⟨rfl, ?_⟩
    rw [sameAs_iff]
    simp only [ht2, hb2, hl2, hr2, CropResult.image, Int.toNat_natCast]
    refine ⟨?_, ?_, ?_⟩
    · show (C.width - 1 + 1) - 0 = C.width
      omega
    · show (C.height - 1 + 1) - 0 = C.height
      omega
    · intro row hrow col hcol
      show C.pix (0 + row) (0 + col) = C.pix row col
      rw [Nat.zero_add, Nat.zero_add]

/-- Witness for the amended C7: re-cropping the 4x4 output of the first
crop of `img10` gives a `Cropped` result with identical pixel content. -/
theorem recrop_full_frame_witness :
    (auto_crop_borders ((auto_crop_borders img10 240 true false 0).image)
      240 true false 0).isCropped = true ∧
    Image.sameAs
      (auto_crop_borders ((auto_crop_borders img10 240 true false 0).image)
        240 true false 0).image
      ((auto_crop_borders img10 240 true false 0).image) = true :=
  recrop_full_frame img10 240 true 0 0
    ((auto_crop_borders img10 240 true false 0).image) rfl

/-- Counterexample to C8: on the 0x0 image the crop path signals no
`InvalidImage` error — the scans exhaust and the degenerate branch returns
the image unchanged, wrapped in `Except.ok`. -/
theorem zero_dim_no_error_counterexample :
    auto_crop_bordersE img00 240 true true 700
      ≠ Except.error CropError.InvalidImage := by
  simp [auto_crop_bordersE]

/-- C8 amended: a malformed image (zero width or zero height) raises no
error in the crop algorithm: every line scan is vacuously background (or
there is no line at all), the scans exhaust to their sentinels, and the
degenerate branch returns `Unchanged`.  (The surrounding file operation in
the source additionally wraps everything in a catch-all that converts any
raised error into a boolean failure value.) -/
theorem zero_dim_unchanged (img : Image) (th : Nat) (ct sq : Bool) (pad : Nat)
    (h : img.width = 0 ∨ img.height = 0) :
    auto_crop_borders img th ct sq pad = CropResult.Unchanged img := by
  apply auto_crop_of_degenerate
  left
  rcases h with hw | hh
  · have htop := findTop_exhaust img ct th (fun j hj =>
      (rowAllBg_iff img ct th j).mpr (fun c hc => absurd hc (by omega)))
    have hbot := findBottom_exhaust img ct th (fun j hj =>
      (rowAllBg_iff img ct th j).mpr (fun c hc => absurd hc (by omega)))
    rw [htop, hbot]
    omega
  · have htop := findTop_exhaust img ct th (fun j hj => absurd hj (by omega))
    have hbot := findBottom_exhaust img ct th (fun j hj => absurd hj (by omega))
    rw [htop, hbot]
    omega

/-- Witness for the amended C8 at the 0x0 image. -/
theorem zero_dim_unchanged_witness :
    auto_crop_borders img00 240 true true 700 = CropResult.Unchanged img00 :=
  zero_dim_unchanged img00 240 true true 700 (Or.inl rfl)

/-- C9: for an image with exactly one non-background pixel, at (x, y), the
four scans all find that pixel's row and column:
top = bottom = y and left = right = x. -/
theorem single_pixel_bounds (img : Image) (ct : Bool) (th : Nat) (x y : Nat)
    (hx : x < img.width) (hy : y < img.height)
    (hp : is_background ct th (img.pix y x) = false)
    (hothers : ∀ r, r < img.height → ∀ c, c < img.width → ¬(r = y ∧ c = x) →
      is_background ct th (img.pix r c) = true) :
    findTop img ct th = y ∧ findBottom img ct th = (y : Int) ∧
    findLeft img ct th = x ∧ findRight img ct th = (x : Int) := by
  have hrow : ∀ j, j < img.height → j ≠ y → rowAllBg img ct th j = true := by
    intro j hj hne
    exact (rowAllBg_iff img ct th j).mpr fun c hc =>
      hothers j hj c hc (fun hand => hne hand.1)
  have hcol : ∀ j, j < img.width → j ≠ x → colAllBg img ct th j = true := by
    intro j hj hne
    exact (colAllBg_iff img ct th j).mpr fun r hr =>
      hothers r hr j hj (fun hand => hne hand.2)
  have hrowy : rowAllBg img ct th y = false :=
    (rowAllBg_eq_false img ct th y).mpr ⟨x, hx, hp⟩
  have hcolx : colAllBg img ct th x = false :=
    (colAllBg_eq_false img ct th x).mpr ⟨y, hy, hp⟩
  exact ⟨findTop_eq img ct th y (fun j hj => hrow j (by omega) (by omega)) hy hrowy,
    findBottom_eq img ct th y (fun j hj1 hj2 => hrow j hj2 (by omega)) hy hrowy,
    findLeft_eq img ct th x (fun j hj => hcol j (by omega) (by omega)) hx hcolx,
    findRight_eq img ct th x (fun j hj1 hj2 => hcol j hj2 (by omega)) hx hcolx⟩

/-- Witness for C9: the single black pixel of `img1px` sits at
row 2, column 3, and all four scans find it. -/
theorem single_pixel_bounds_witness :
    findTop img1px true 240 = 2 ∧ findBottom img1px true 240 = (2 : Int) ∧
    findLeft img1px true 240 = 3 ∧ findRight img1px true 240 = (3 : Int) :=
  single_pixel_bounds img1px true 240 3 2 (by decide) (by decide) (by decide) (by decide)

/-- C10: when all non-background content lies in a single row (or a single
column), the boundary scans collapse (top = bottom, or left = right), the
degenerate branch triggers, and the crop returns `Unchanged` even though
removable border remains on the other sides. -/
theorem single_line_no_crop (img : Image) (th : Nat) (ct sq : Bool) (pad : Nat) :
    ((∃ y, y < img.height ∧ rowAllBg img ct th y = false ∧
        ∀ r, r < img.height → rowAllBg img ct th r = false → r = y) →
      auto_crop_borders img th ct sq pad = CropResult.Unchanged img) ∧
    ((∃ x, x < img.width ∧ colAllBg img ct th x = false ∧
        ∀ c, c < img.width → colAllBg img ct th c = false → c = x) →
      auto_crop_borders img th ct sq pad = CropResult.Unchanged img) := by
  constructor
  · rintro ⟨y, hy, hrow, huniq⟩
    apply auto_crop_of_degenerate
    left
    have hothers : ∀ j, j < img.height → j ≠ y → rowAllBg img ct th j = true := by
      intro j hj hne
      rcases Bool.eq_false_or_eq_true (rowAllBg img ct th j) with ht | hf
      · exact ht
      · exact absurd (huniq j hj hf) hne
    have htop : findTop img ct th = y :=
      findTop_eq img ct th y (fun j hj => hothers j (by omega) (by omega)) hy hrow
    have hbot : findBottom img ct th = (y : Int) :=
      findBottom_eq img ct th y (fun j hj1 hj2 => hothers j hj2 (by omega)) hy hrow
    rw [htop, hbot]
  · rintro ⟨x, hx, hcol, huniq⟩
    apply auto_crop_of_degenerate
    right
    have hothers : ∀ j, j < img.width → j ≠ x → colAllBg img ct th j = true := by
      intro j hj hne
      rcases Bool.eq_false_or_eq_true (colAllBg img ct th j) with ht | hf
      · exact ht
      · exact absurd (huniq j hj hf) hne
    have hleft : findLeft img ct th = x :=
      findLeft_eq img ct th x (fun j hj => hothers j (by omega) (by omega)) hx hcol
    have hright : findRight img ct th = (x : Int) :=
      findRight_eq img ct th x (fun j hj1 hj2 => hothers j hj2 (by omega)) hx hcol
    rw [hleft, hright]

/-- Witness for C10: `imgRow` has its two black pixels confined to row 1,
and the crop passes it through `Unchanged`. -/
theorem single_line_no_crop_witness :
    auto_crop_borders imgRow 240 true true 3 = CropResult.Unchanged imgRow :=
  (single_line_no_crop imgRow 240 true true 3).1 ⟨1, by decide, by decide, by decide⟩

end PYResizer
